import Mathlib

/-!
Verification development for the vocabulary construction and bidirectional
lookup of `vitts/utils/phonemizer/character.py` (class `BaseCharacters`).

Embedding conventions:
* A Python `str` used as a symbol inventory is iterated character by
  character; we embed such an inventory as a `List Symbol` of its
  one-character symbols.  Control tokens (`pad`, `eos`, `bos`, `blank`) are
  whole strings, possibly multi-character, possibly `None`; we embed them as
  `Option Symbol`.
* `list(set(xs))` (the `is_unique` branch of `_create_vocab`) enumerates the
  distinct elements of `xs` in an unspecified order.  We model it as an
  arbitrary function `dedup` together with, where a claim needs it, the
  admissibility hypothesis that `dedup xs` is a permutation of `xs.dedup`
  (one copy of each element, order arbitrary).
* `sorted(xs)` sorts lexicographically by code point; Lean's `String`
  linear order from Mathlib is the same lexicographic order on the
  underlying character lists, and we use `List.insertionSort (· ≤ ·)`.
* The dict comprehension `{char: idx for idx, char in enumerate(vocab)}`
  lets later duplicates overwrite earlier ones, so as a map it sends a
  symbol to its LAST index in `vocab`, and its key count is the number of
  distinct symbols of `vocab` (`vocab.dedup.length`).  The reverse dict
  `{idx: char ...}` has the distinct keys `0..len-1`, so it is positional
  indexing and its size is `vocab.length`.
* Python exceptions are embedded with `Except`: the `TypeError` raised by
  iterating `None`, the `AssertionError` of the `is_unique` integrity check
  (naming the duplicated symbols, `{x for x in vocab if vocab.count(x) > 1}`),
  and the `KeyError`s of the two lookup directions.
-/

namespace VittsCharacters

/-- Symbols are Python strings: one-character strings for inventory entries,
arbitrary strings for control tokens. -/
abbrev Symbol := String

/-- Errors raised during `_create_vocab`:
`typeErrorNoneIterate` models the `TypeError` from `sorted(None)` /
`list(None)` when `characters` or `punctuations` is `None`;
`integrityError dups` models the failing `assert` of the `is_unique` check,
whose message names the duplicated symbols. -/
inductive VocabError where
  | typeErrorNoneIterate : VocabError
  | integrityError (dups : List Symbol) : VocabError
  deriving DecidableEq, Repr

/-- Errors raised by the lookup API: the `KeyError` of `char_to_id`
(carrying the offending symbol) and the `KeyError` of `id_to_char`
(carrying the offending id). -/
inductive LookupError where
  | unknownSymbol (s : Symbol) : LookupError
  | unknownId (i : Nat) : LookupError
  deriving DecidableEq, Repr

/-- The constructor parameters of `BaseCharacters.__init__`: the eight
fields stored before `_create_vocab()` runs.  `characters` and
`punctuations` are optional because the Python defaults are `None`. -/
structure BaseCharacters where
  characters : Option (List Symbol)
  punctuations : Option (List Symbol)
  pad : Option Symbol
  eos : Option Symbol
  bos : Option Symbol
  blank : Option Symbol
  is_unique : Bool
  is_sorted : Bool
  deriving DecidableEq, Repr

/-- `[tok] + vocab if tok is not None and len(tok) > 0 else vocab`:
the guarded prepend used for each control token in `_create_vocab`. -/
def prependTok (tok : Option Symbol) (l : List Symbol) : List Symbol :=
  match tok with
  | some t => if t.length > 0 then t :: l else l
  | none => l

/-- Python's string comparison, lexicographic by code point: the order used
by `sorted(...)` in `_create_vocab`.  Stated on the underlying character
lists; `symLe_iff_le` below shows it agrees with Mathlib's `String` order. -/
def symLe (a b : Symbol) : Prop := a.data ≤ b.data

instance : DecidableRel symLe := fun a b =>
  inferInstanceAs (Decidable (a.data ≤ b.data))

/-- The character part of `_create_vocab`: starting from `characters`,
apply `list(set(·))` (modelled by `dedup`) when `is_unique`, then
`sorted(·)` when `is_sorted`. -/
def coreChars (dedup : List Symbol → List Symbol) (cs : List Symbol)
    (u srt : Bool) : List Symbol :=
  let base := if u then dedup cs else cs
  if srt then List.insertionSort symLe base else base

/-- The vocabulary list assembled by `_create_vocab` when both `characters`
and `punctuations` are present: processed characters, then the guarded
prepends of blank, bos, eos, pad (in that textual order, so the front of the
final list reads pad, eos, bos, blank), then `punctuations` appended. -/
def assembleVocab (dedup : List Symbol → List Symbol)
    (cs ps : List Symbol) (pad eos bos blank : Option Symbol)
    (u srt : Bool) : List Symbol :=
  let v := coreChars dedup cs u srt
  let v := prependTok blank v
  let v := prependTok bos v
  let v := prependTok eos v
  let v := prependTok pad v
  v ++ ps

/-- `{x for x in vocab if vocab.count(x) > 1}`: the set of symbols occurring
more than once, named by the integrity-check assertion message. -/
def duplicates (v : List Symbol) : List Symbol :=
  (v.filter (fun x => 1 < v.count x)).dedup

/-- The `is_unique` integrity check
`len(vocab) == len(char_to_id) == len(id_to_char)`:
`len(char_to_id)` is the number of distinct symbols (`v.dedup.length`) and
`len(id_to_char)` is `v.length`. -/
def integrityCheck (v : List Symbol) : Bool :=
  v.length == v.dedup.length && v.dedup.length == v.length

/-- `BaseCharacters._create_vocab`, run at construction time.  `None`
characters or punctuations raise `TypeError` (`sorted(None)` / `list(None)`);
with `is_unique` set, the assembled vocabulary must pass the integrity check
or the assertion fails naming the duplicated symbols. -/
def createVocab (dedup : List Symbol → List Symbol) (c : BaseCharacters) :
    Except VocabError (List Symbol) :=
  match c.characters, c.punctuations with
  | some cs, some ps =>
      if c.is_unique && !integrityCheck (assembleVocab dedup cs ps c.pad
          c.eos c.bos c.blank c.is_unique c.is_sorted) then
        .error (.integrityError (duplicates (assembleVocab dedup cs ps c.pad
          c.eos c.bos c.blank c.is_unique c.is_sorted)))
      else
        .ok (assembleVocab dedup cs ps c.pad c.eos c.bos c.blank
          c.is_unique c.is_sorted)
  | _, _ => .error .typeErrorNoneIterate

/-- Last index of `s` in `l`: the value the dict comprehension
`{char: idx for idx, char in enumerate(vocab)}` assigns to `s` (later
duplicates overwrite earlier entries), `none` when `s` is not a key. -/
def lastIdxOf : List Symbol → Symbol → Option Nat
  | [], _ => none
  | a :: l, s =>
      match lastIdxOf l s with
      | some i => some (i + 1)
      | none => if a = s then some 0 else none

/-- `BaseCharacters.char_to_id`: look `char` up in the forward dict
(exact match, last index on duplicates), raising a `KeyError` that carries
the offending symbol when absent. -/
def char_to_id (v : List Symbol) (s : Symbol) : Except LookupError Nat :=
  match lastIdxOf v s with
  | some i => .ok i
  | none => .error (.unknownSymbol s)

/-- `BaseCharacters.id_to_char`: look `idx` up in the reverse dict, whose
keys are exactly `0..len(vocab)-1`, raising a `KeyError` carrying the id
when out of range. -/
def id_to_char (v : List Symbol) (i : Nat) : Except LookupError Symbol :=
  match v.get? i with
  | some s => .ok s
  | none => .error (.unknownId i)

/-- `BaseCharacters.num_chars`: `len(self._vocab)`. -/
def num_chars (v : List Symbol) : Nat := v.length

/-- `BaseCharacters.pad_id`:
`self.char_to_id(self.pad) if self.pad else len(self.vocab)` — the Python
truthiness test is false for `None` and for the empty string. -/
def pad_id (pad : Option Symbol) (v : List Symbol) : Except LookupError Nat :=
  match pad with
  | some p => if p.length > 0 then char_to_id v p else .ok v.length
  | none => .ok v.length

/-- `BaseCharacters.blank_id`: identical contract, substituting `blank`. -/
def blank_id (blank : Option Symbol) (v : List Symbol) :
    Except LookupError Nat :=
  match blank with
  | some b => if b.length > 0 then char_to_id v b else .ok v.length
  | none => .ok v.length

/-- The contribution of one control token to the vocabulary: the singleton
list when the token is present (not `None`) and non-empty, else nothing. -/
def optTok (tok : Option Symbol) : List Symbol :=
  match tok with
  | some t => if t.length > 0 then [t] else []
  | none => []

/-- The control-token head of the vocabulary, front-to-back order
pad, eos, bos, blank. -/
def presentToks (pad eos bos blank : Option Symbol) : List Symbol :=
  optTok pad ++ optTok eos ++ optTok bos ++ optTok blank

/-- Modelled from the spec: the `CharactersConfig` dataclass returned by
`BaseCharacters.to_config` is referenced but not defined in the supplied
source; per the spec it is "a configuration record capturing exactly the
constructor parameters used (`characters`, `punctuations`, `pad`, `eos`,
`bos`, `blank`, `isUnique`, `isSorted`)". -/
structure CharactersConfig where
  characters : Option (List Symbol)
  punctuations : Option (List Symbol)
  pad : Option Symbol
  eos : Option Symbol
  bos : Option Symbol
  blank : Option Symbol
  is_unique : Bool
  is_sorted : Bool
  deriving DecidableEq, Repr

/-- `BaseCharacters.to_config`: builds the configuration record from the
eight stored constructor parameters. -/
def to_config (c : BaseCharacters) : CharactersConfig :=
  ⟨c.characters, c.punctuations, c.pad, c.eos, c.bos, c.blank,
    c.is_unique, c.is_sorted⟩

/-- `BaseCharacters(**config.characters)`, the fall-through branch of
`init_from_config`: reconstruct the constructor parameters from a persisted
configuration record (construction then reruns `_create_vocab`). -/
def ofConfig (k : CharactersConfig) : BaseCharacters :=
  ⟨k.characters, k.punctuations, k.pad, k.eos, k.bos, k.blank,
    k.is_unique, k.is_sorted⟩

instance {ε α : Type} [DecidableEq ε] [DecidableEq α] :
    DecidableEq (Except ε α) := fun
  | .error a, .error b =>
      if h : a = b then .isTrue (by rw [h])
      else .isFalse (by intro hc; cases hc; exact h rfl)
  | .error _, .ok _ => .isFalse (by intro hc; cases hc)
  | .ok _, .error _ => .isFalse (by intro hc; cases hc)
  | .ok a, .ok b =>
      if h : a = b then .isTrue (by rw [h])
      else .isFalse (by intro hc; cases hc; exact h rfl)

/-! ### Order facts about `symLe` -/

theorem symLe_iff_le (a b : Symbol) : symLe a b ↔ a ≤ b := by
  rw [String.le_iff_toList_le]
  exact Iff.rfl

instance : IsTotal Symbol symLe :=
  ⟨fun a b => le_total a.data b.data⟩

instance : IsTrans Symbol symLe :=
  ⟨fun _ _ _ hab hbc => le_trans hab hbc⟩

instance : IsAntisymm Symbol symLe :=
  ⟨fun _ _ hab hba => String.toList_inj.mp (le_antisymm hab hba)⟩

theorem sorted_sortSymbols (l : List Symbol) :
    List.Sorted symLe (List.insertionSort symLe l) :=
  List.sorted_insertionSort symLe l

theorem sortSymbols_eq_of_perm {l₁ l₂ : List Symbol} (h : l₁.Perm l₂) :
    List.insertionSort symLe l₁ = List.insertionSort symLe l₂ :=
  List.eq_of_perm_of_sorted
    ((List.perm_insertionSort symLe l₁).trans
      (h.trans (List.perm_insertionSort symLe l₂).symm))
    (sorted_sortSymbols l₁) (sorted_sortSymbols l₂)

/-! ### Characterization of `lastIdxOf` -/

theorem lastIdxOf_eq_none {l : List Symbol} {s : Symbol} :
    lastIdxOf l s = none ↔ s ∉ l := by
  induction l with
  | nil => simp [lastIdxOf]
  | cons a l ih =>
      rw [lastIdxOf]
      cases h : lastIdxOf l s with
      | some i =>
          have hmem : s ∈ l := by
            by_contra hc
            rw [ih.mpr hc] at h
            cases h
          simp [hmem]
      | none =>
          have hs : s ∉ l := ih.mp h
          by_cases has : a = s
          · subst has
            simp
          · simp [has, hs, Ne.symm has]

theorem lastIdxOf_get? {l : List Symbol} {s : Symbol} {k : Nat}
    (h : lastIdxOf l s = some k) : l.get? k = some s := by
  induction l generalizing k with
  | nil => cases h
  | cons a l ih =>
      rw [lastIdxOf] at h
      cases h' : lastIdxOf l s with
      | some i =>
          rw [h'] at h
          cases h
          simpa using ih h'
      | none =>
          rw [h'] at h
          by_cases has : a = s
          · simp [has] at h
            subst h
            simp [has]
          · simp [has] at h

theorem le_lastIdxOf {l : List Symbol} {s : Symbol} {i : Nat}
    (h : l.get? i = some s) : ∃ k, lastIdxOf l s = some k ∧ i ≤ k := by
  induction l generalizing i with
  | nil => cases h
  | cons a l ih =>
      cases i with
      | zero =>
          simp at h
          subst h
          cases hk : lastIdxOf l a with
          | some j => exact ⟨j + 1, by rw [lastIdxOf, hk], Nat.zero_le _⟩
          | none => exact ⟨0, by rw [lastIdxOf, hk]; simp, Nat.le_refl 0⟩
      | succ i =>
          simp only [List.get?_cons_succ] at h
          obtain ⟨k, hk, hik⟩ := ih h
          exact ⟨k + 1, by rw [lastIdxOf, hk], Nat.succ_le_succ hik⟩

theorem lastIdxOf_lt_length {l : List Symbol} {s : Symbol} {k : Nat}
    (h : lastIdxOf l s = some k) : k < l.length :=
  List.get?_eq_some.mp (lastIdxOf_get? h) |>.1

theorem lastIdxOf_of_nodup {l : List Symbol} {s : Symbol} {i : Nat}
    (hn : l.Nodup) (h : l.get? i = some s) : lastIdxOf l s = some i := by
  obtain ⟨k, hk, _⟩ := le_lastIdxOf h
  have hks : l.get? k = some s := lastIdxOf_get? hk
  have : k = i := by
    obtain ⟨hkl, hkg⟩ := List.get?_eq_some.mp hks
    obtain ⟨hil, hig⟩ := List.get?_eq_some.mp h
    have := List.nodup_iff_injective_get.mp hn
      (show l.get ⟨k, hkl⟩ = l.get ⟨i, hil⟩ by rw [hkg, hig])
    simpa using congrArg Fin.val this
  rw [this] at hk
  exact hk

theorem lastIdxOf_eq_of_unique {l : List Symbol} {s : Symbol} {i : Nat}
    (h : l.get? i = some s) (huniq : ∀ j, l.get? j = some s → j = i) :
    lastIdxOf l s = some i := by
  obtain ⟨k, hk, _⟩ := le_lastIdxOf h
  rw [huniq k (lastIdxOf_get? hk)] at hk
  exact hk

theorem lastIdxOf_cons_head {l : List Symbol} {s : Symbol} (h : s ∉ l) :
    lastIdxOf (s :: l) s = some 0 := by
  rw [lastIdxOf, lastIdxOf_eq_none.mpr h]
  simp

theorem lastIdxOf_cons_shift {l : List Symbol} {s a : Symbol} {i : Nat}
    (h : lastIdxOf l s = some i) :
    lastIdxOf (a :: l) s = some (i + 1) := by
  rw [lastIdxOf, h]

theorem char_to_id_ok {v : List Symbol} {s : Symbol} {k : Nat}
    (h : char_to_id v s = .ok k) : lastIdxOf v s = some k := by
  unfold char_to_id at h
  cases hl : lastIdxOf v s with
  | some i => rw [hl] at h; rw [Except.ok.inj h]
  | none => rw [hl] at h; cases h

theorem char_to_id_of_lastIdxOf {v : List Symbol} {s : Symbol} {k : Nat}
    (h : lastIdxOf v s = some k) : char_to_id v s = .ok k := by
  unfold char_to_id
  rw [h]

/-! ### Facts about the assembly -/

theorem prependTok_eq (tok : Option Symbol) (l : List Symbol) :
    prependTok tok l = optTok tok ++ l := by
  cases tok with
  | none => rfl
  | some t =>
      by_cases h : t.length > 0 <;> simp [prependTok, optTok, h]

theorem assembleVocab_eq (dedup : List Symbol → List Symbol)
    (cs ps : List Symbol) (pad eos bos blank : Option Symbol) (u srt : Bool) :
    assembleVocab dedup cs ps pad eos bos blank u srt =
      presentToks pad eos bos blank ++ coreChars dedup cs u srt ++ ps := by
  simp [assembleVocab, prependTok_eq, presentToks, List.append_assoc]

theorem mem_coreChars {dedup : List Symbol → List Symbol}
    (hadm : ∀ l, (dedup l).Perm l.dedup) (cs : List Symbol) (u srt : Bool)
    {s : Symbol} : s ∈ coreChars dedup cs u srt ↔ s ∈ cs := by
  unfold coreChars
  cases u <;> cases srt <;>
    simp [List.mem_insertionSort, (hadm cs).mem_iff, List.mem_dedup]

theorem integrityCheck_iff_nodup {v : List Symbol} :
    integrityCheck v = true ↔ v.Nodup := by
  unfold integrityCheck
  rw [Bool.and_eq_true, beq_iff_eq, beq_iff_eq]
  constructor
  · intro h
    have : v.dedup = v := (List.dedup_sublist v).eq_of_length h.1.symm
    exact List.dedup_eq_self.mp this
  · intro h
    rw [List.dedup_eq_self.mpr h]
    exact ⟨rfl, rfl⟩

theorem createVocab_ok_shape {dedup : List Symbol → List Symbol}
    {c : BaseCharacters} {v : List Symbol}
    (h : createVocab dedup c = .ok v) :
    ∃ cs ps, c.characters = some cs ∧ c.punctuations = some ps ∧
      v = assembleVocab dedup cs ps c.pad c.eos c.bos c.blank
        c.is_unique c.is_sorted := by
  unfold createVocab at h
  split at h
  · next cs ps hcs hps =>
      split at h
      · cases h
      · exact ⟨cs, ps, hcs, hps, (Except.ok.inj h).symm⟩
  · cases h

theorem createVocab_ok_nodup {dedup : List Symbol → List Symbol}
    {c : BaseCharacters} {v : List Symbol}
    (h : createVocab dedup c = .ok v) (hu : c.is_unique = true) :
    v.Nodup := by
  unfold createVocab at h
  split at h
  · split at h
    · cases h
    · next hcond =>
        rw [← Except.ok.inj h]
        rw [hu, Bool.true_and, Bool.not_eq_true', Bool.not_eq_false] at hcond
        rw [hu]
        exact integrityCheck_iff_nodup.mp hcond
  · cases h

theorem createVocab_not_unique_ok (dedup : List Symbol → List Symbol)
    {c : BaseCharacters} {cs ps : List Symbol}
    (hcs : c.characters = some cs) (hps : c.punctuations = some ps)
    (hu : c.is_unique = false) :
    createVocab dedup c =
      .ok (assembleVocab dedup cs ps c.pad c.eos c.bos c.blank
        false c.is_sorted) := by
  unfold createVocab
  rw [hcs, hps, hu]
  simp

theorem createVocab_eq_of_sorted {d1 d2 : List Symbol → List Symbol}
    (h1 : ∀ l, (d1 l).Perm l.dedup) (h2 : ∀ l, (d2 l).Perm l.dedup)
    {c : BaseCharacters} (hs : c.is_sorted = true) :
    createVocab d1 c = createVocab d2 c := by
  have hcore : ∀ cs u, coreChars d1 cs u true = coreChars d2 cs u true := by
    intro cs u
    cases u with
    | false => rfl
    | true =>
        show List.insertionSort symLe (d1 cs) =
          List.insertionSort symLe (d2 cs)
        exact sortSymbols_eq_of_perm ((h1 cs).trans (h2 cs).symm)
  have hasm : ∀ cs ps, assembleVocab d1 cs ps c.pad c.eos c.bos c.blank
      c.is_unique c.is_sorted = assembleVocab d2 cs ps c.pad c.eos c.bos
      c.blank c.is_unique c.is_sorted := by
    intro cs ps
    rw [assembleVocab_eq, assembleVocab_eq, hs, hcore]
  unfold createVocab
  cases hcs : c.characters with
  | none => rfl
  | some cs =>
      cases hps : c.punctuations with
      | none => rfl
      | some ps => simp only [hasm]

theorem createVocab_eq_of_not_unique {d1 d2 : List Symbol → List Symbol}
    {c : BaseCharacters} (hu : c.is_unique = false) :
    createVocab d1 c = createVocab d2 c := by
  have hasm : ∀ cs ps, assembleVocab d1 cs ps c.pad c.eos c.bos c.blank
      c.is_unique c.is_sorted = assembleVocab d2 cs ps c.pad c.eos c.bos
      c.blank c.is_unique c.is_sorted := by
    intro cs ps
    rw [assembleVocab_eq, assembleVocab_eq, hu]
    rfl
  unfold createVocab
  cases hcs : c.characters with
  | none => rfl
  | some cs =>
      cases hps : c.punctuations with
      | none => rfl
      | some ps => simp only [hasm]

/-! ### Claims -/

/-- C1: constructing with characters = "cba", punctuations = "!",
pad = "<PAD>", eos/bos/blank absent, is_unique = false, is_sorted = true
yields the ordered table ["<PAD>", "a", "b", "c", "!"], with
char_to_id "a" = 1, id_to_char 4 = "!", and num_chars = 5; and in general
the assembled vocabulary is the present control tokens (pad, eos, bos,
blank, in that order) followed by the deduped/sorted-per-flags characters
followed by the punctuations verbatim. -/
theorem c1_example_and_assembly_order :
    createVocab List.dedup
      ⟨some ["c", "b", "a"], some ["!"], some "<PAD>", none, none, none,
        false, true⟩ = .ok ["<PAD>", "a", "b", "c", "!"] ∧
    char_to_id ["<PAD>", "a", "b", "c", "!"] "a" = .ok 1 ∧
    id_to_char ["<PAD>", "a", "b", "c", "!"] 4 = .ok "!" ∧
    num_chars ["<PAD>", "a", "b", "c", "!"] = 5 ∧
    ∀ (dedup : List Symbol → List Symbol) (cs ps : List Symbol)
      (pad eos bos blank : Option Symbol) (u srt : Bool),
      assembleVocab dedup cs ps pad eos bos blank u srt =
        presentToks pad eos bos blank ++ coreChars dedup cs u srt ++ ps :=
  ⟨by decide, by decide, by decide, by decide, assembleVocab_eq⟩

/-- C5: char_to_id fails, with an error carrying the offending symbol,
exactly when the symbol is not a key of the forward table (the symbols of
the vocabulary, exact match); id_to_char fails, with an error carrying the
offending id, exactly when the id is at or above num_chars (outside the
enumerated range 0..num_chars-1). -/
theorem c5_unknown_lookup_errors :
    (∀ (v : List Symbol) (s : Symbol),
      char_to_id v s = .error (.unknownSymbol s) ↔ s ∉ v) ∧
    (∀ (v : List Symbol) (s : Symbol),
      (∃ err, char_to_id v s = .error err) ↔
        char_to_id v s = .error (.unknownSymbol s)) ∧
    (∀ (v : List Symbol) (i : Nat),
      id_to_char v i = .error (.unknownId i) ↔ num_chars v ≤ i) ∧
    (∀ (v : List Symbol) (i : Nat),
      (∃ err, id_to_char v i = .error err) ↔
        id_to_char v i = .error (.unknownId i)) := by
  refine ⟨fun v s => ?_, fun v s => ?_, fun v i => ?_, fun v i => ?_⟩
  · unfold char_to_id
    cases hl : lastIdxOf v s with
    | some k =>
        constructor
        · intro h; cases h
        · intro h
          exact absurd hl (by rw [lastIdxOf_eq_none.mpr h]; intro hc; cases hc)
    | none =>
        simp only [true_iff]
        exact lastIdxOf_eq_none.mp hl
  · unfold char_to_id
    cases hl : lastIdxOf v s with
    | some k =>
        constructor
        · rintro ⟨err, herr⟩; cases herr
        · intro h; cases h
    | none => exact ⟨fun _ => rfl, fun h => ⟨_, h⟩⟩
  · unfold id_to_char
    cases hg : v.get? i with
    | some s =>
        constructor
        · intro h; cases h
        · intro h
          rw [List.get?_eq_none.mpr h] at hg
          cases hg
    | none =>
        simp only [true_iff]
        exact List.get?_eq_none.mp hg
  · unfold id_to_char
    cases hg : v.get? i with
    | some s =>
        constructor
        · rintro ⟨err, herr⟩; cases herr
        · intro h; cases h
    | none => exact ⟨fun _ => rfl, fun h => ⟨_, h⟩⟩

/-- C5 witness: on the vocabulary of the end-to-end example, looking up the
symbol "Z" fails naming "Z", and looking up id 99 fails naming 99. -/
theorem c5_unknown_lookup_errors_witness :
    char_to_id ["<PAD>", "a", "b", "c", "!"] "Z" =
      .error (.unknownSymbol "Z") ∧
    id_to_char ["<PAD>", "a", "b", "c", "!"] 99 = .error (.unknownId 99) :=
  ⟨(c5_unknown_lookup_errors.1 ["<PAD>", "a", "b", "c", "!"] "Z").mpr
      (by decide),
   (c5_unknown_lookup_errors.2.2.1 ["<PAD>", "a", "b", "c", "!"] 99).mpr
      (by decide)⟩

/-- C6: for every vocabulary constructed with pad absent, pad_id returns
num_chars (the out-of-range sentinel) and never raises; identically for
blank_id with blank absent. -/
theorem c6_sentinel_fallback (dedup : List Symbol → List Symbol)
    {c : BaseCharacters} {v : List Symbol}
    (_h : createVocab dedup c = .ok v) :
    (c.pad = none → pad_id c.pad v = .ok (num_chars v)) ∧
    (c.blank = none → blank_id c.blank v = .ok (num_chars v)) := by
  constructor <;> intro hn <;> rw [hn] <;> rfl

/-- C6 witness: a concrete construction with pad and blank absent, whose
pad_id and blank_id are the sentinel num_chars = 2. -/
theorem c6_sentinel_fallback_witness :
    createVocab List.dedup
      ⟨some ["a"], some ["!"], none, none, none, none, false, true⟩ =
      .ok ["a", "!"] ∧
    pad_id none ["a", "!"] = .ok (num_chars ["a", "!"]) ∧
    blank_id none ["a", "!"] = .ok (num_chars ["a", "!"]) :=
  ⟨by decide,
   (@c6_sentinel_fallback List.dedup
     ⟨some ["a"], some ["!"], none, none, none, none, false, true⟩
     ["a", "!"] (by decide)).1 rfl,
   (@c6_sentinel_fallback List.dedup
     ⟨some ["a"], some ["!"], none, none, none, none, false, true⟩
     ["a", "!"] (by decide)).2 rfl⟩

/-- C8: contrary to the claim, construction does not accept an absent
punctuations input: `_create_vocab` evaluates `list(self._punctuations)`
unguarded, so `punctuations=None` raises a TypeError instead of defaulting
to the empty sequence. -/
theorem c8_none_punctuations_raises :
    createVocab List.dedup
      ⟨some ["a"], none, some "<PAD>", none, none, none, false, true⟩ =
      .error .typeErrorNoneIterate := rfl

/-- C2: for every vocabulary built with is_unique = true and
is_sorted = true whose construction succeeds, the two lookup directions are
mutually inverse: mapping an id to its symbol and back returns the id for
every id below num_chars, and mapping a symbol to its id and back returns
the symbol for every symbol of the vocabulary. -/
theorem c2_lookup_roundtrip {d : List Symbol → List Symbol}
    {c : BaseCharacters} {v : List Symbol}
    (h : createVocab d c = .ok v) (hu : c.is_unique = true)
    (_hs : c.is_sorted = true) :
    (∀ i, i < num_chars v →
      (id_to_char v i).bind (char_to_id v) = .ok i) ∧
    (∀ s, s ∈ v → (char_to_id v s).bind (id_to_char v) = .ok s) := by
  have hn : v.Nodup := createVocab_ok_nodup h hu
  constructor
  · intro i hi
    have hg : v.get? i = some (v.get ⟨i, hi⟩) := List.get?_eq_get hi
    have hl : lastIdxOf v (v.get ⟨i, hi⟩) = some i := lastIdxOf_of_nodup hn hg
    unfold id_to_char
    rw [hg]
    exact char_to_id_of_lastIdxOf hl
  · intro s hs
    obtain ⟨i, hgi⟩ := List.mem_iff_get?.mp hs
    have hl : lastIdxOf v s = some i := lastIdxOf_of_nodup hn hgi
    rw [char_to_id_of_lastIdxOf hl]
    show id_to_char v i = .ok s
    unfold id_to_char
    rw [hgi]

/-- C2 witness: the round trips hold on the concrete unique sorted
vocabulary ["<PAD>", "<EOS>", "<BOS>", "<BLNK>", "a", "b", "!"]. -/
theorem c2_lookup_roundtrip_witness :
    createVocab List.dedup
      ⟨some ["b", "a"], some ["!"], some "<PAD>", some "<EOS>",
        some "<BOS>", some "<BLNK>", true, true⟩ =
      .ok ["<PAD>", "<EOS>", "<BOS>", "<BLNK>", "a", "b", "!"] ∧
    ((∀ i, i < num_chars ["<PAD>", "<EOS>", "<BOS>", "<BLNK>", "a", "b", "!"] →
      (id_to_char ["<PAD>", "<EOS>", "<BOS>", "<BLNK>", "a", "b", "!"] i).bind
        (char_to_id ["<PAD>", "<EOS>", "<BOS>", "<BLNK>", "a", "b", "!"]) =
          .ok i) ∧
     (∀ s, s ∈ ["<PAD>", "<EOS>", "<BOS>", "<BLNK>", "a", "b", "!"] →
      (char_to_id ["<PAD>", "<EOS>", "<BOS>", "<BLNK>", "a", "b", "!"] s).bind
        (id_to_char ["<PAD>", "<EOS>", "<BOS>", "<BLNK>", "a", "b", "!"]) =
          .ok s)) :=
  ⟨by decide,
   @c2_lookup_roundtrip List.dedup
     ⟨some ["b", "a"], some ["!"], some "<PAD>", some "<EOS>",
       some "<BOS>", some "<BLNK>", true, true⟩
     ["<PAD>", "<EOS>", "<BOS>", "<BLNK>", "a", "b", "!"]
     (by decide) rfl rfl⟩

/-- C4: constructing with is_unique = true and a symbol shared between the
characters and the punctuations fails with the integrity error naming the
duplicated symbols, the shared symbol among them. -/
theorem c4_duplicate_detection {dedup : List Symbol → List Symbol}
    (hadm : ∀ l, (dedup l).Perm l.dedup) {c : BaseCharacters}
    {cs ps : List Symbol} {s : Symbol}
    (hcs : c.characters = some cs) (hps : c.punctuations = some ps)
    (hu : c.is_unique = true) (hscs : s ∈ cs) (hsps : s ∈ ps) :
    ∃ dups, createVocab dedup c = .error (.integrityError dups) ∧
      s ∈ dups := by
  have hcore : s ∈ coreChars dedup cs c.is_unique c.is_sorted :=
    (mem_coreChars hadm cs c.is_unique c.is_sorted).mpr hscs
  have hcount : 2 ≤
      (assembleVocab dedup cs ps c.pad c.eos c.bos c.blank
        c.is_unique c.is_sorted).count s := by
    rw [assembleVocab_eq, List.count_append, List.count_append]
    have h1 : 1 ≤ (coreChars dedup cs c.is_unique c.is_sorted).count s :=
      List.count_pos_iff.mpr hcore
    have h2 : 1 ≤ ps.count s := List.count_pos_iff.mpr hsps
    omega
  have hnotnodup : ¬(assembleVocab dedup cs ps c.pad c.eos c.bos c.blank
      c.is_unique c.is_sorted).Nodup := by
    intro hn
    have := List.nodup_iff_count_le_one.mp hn s
    omega
  have hic : integrityCheck (assembleVocab dedup cs ps c.pad c.eos c.bos
      c.blank c.is_unique c.is_sorted) = false := by
    cases hb : integrityCheck (assembleVocab dedup cs ps c.pad c.eos c.bos
        c.blank c.is_unique c.is_sorted) with
    | false => rfl
    | true => exact absurd (integrityCheck_iff_nodup.mp hb) hnotnodup
  refine ⟨duplicates (assembleVocab dedup cs ps c.pad c.eos c.bos c.blank
    c.is_unique c.is_sorted), ?_, ?_⟩
  · unfold createVocab
    rw [hcs, hps]
    simp only [hu] at hic ⊢
    simp only [hic, Bool.not_false, Bool.and_self, if_true]
  · unfold duplicates
    rw [List.mem_dedup, List.mem_filter]
    constructor
    · have : 0 < (assembleVocab dedup cs ps c.pad c.eos c.bos c.blank
          c.is_unique c.is_sorted).count s := by omega
      exact List.count_pos_iff.mp this
    · simp only [decide_eq_true_eq]
      omega

/-- C4 witness: characters = "ab", punctuations = "b", is_unique = true
aborts with the integrity error naming exactly "b". -/
theorem c4_duplicate_detection_witness :
    ("b" ∈ (["a", "b"] : List Symbol)) ∧ ("b" ∈ (["b"] : List Symbol)) ∧
    createVocab List.dedup
      ⟨some ["a", "b"], some ["b"], none, none, none, none, true, true⟩ =
      .error (.integrityError ["b"]) ∧
    ∃ dups, createVocab List.dedup
      ⟨some ["a", "b"], some ["b"], none, none, none, none, true, true⟩ =
        .error (.integrityError dups) ∧ "b" ∈ dups :=
  ⟨by decide, by decide, by decide,
   @c4_duplicate_detection List.dedup (fun _ => List.Perm.refl _)
     ⟨some ["a", "b"], some ["b"], none, none, none, none, true, true⟩
     ["a", "b"] ["b"] "b" rfl rfl rfl (by decide) (by decide)⟩

/-- C7: with is_sorted = true, construction is deterministic regardless of
is_unique: any two admissible realizations of the order-unspecified
`list(set(...))` deduplication give identical construction results. -/
theorem c7_determinism {d1 d2 : List Symbol → List Symbol}
    (h1 : ∀ l, (d1 l).Perm l.dedup) (h2 : ∀ l, (d2 l).Perm l.dedup)
    {c : BaseCharacters} (hs : c.is_sorted = true) :
    createVocab d1 c = createVocab d2 c :=
  createVocab_eq_of_sorted h1 h2 hs

/-- C7 witness: two different admissible deduplication orders (first-seen
order and its reverse) give the same construction result on a concrete
input with is_unique = true, is_sorted = true. -/
theorem c7_determinism_witness :
    createVocab List.dedup
      ⟨some ["b", "a", "b"], some ["!"], some "<PAD>", none, none, none,
        true, true⟩ =
    createVocab (fun l => l.dedup.reverse)
      ⟨some ["b", "a", "b"], some ["!"], some "<PAD>", none, none, none,
        true, true⟩ :=
  c7_determinism (fun _ => List.Perm.refl _)
    (fun l => List.reverse_perm l.dedup) rfl

/-- C9 counterexample: the persisted-config round trip is not exact in
general.  With is_unique = true and is_sorted = false, rebuilding from the
captured record under a different admissible realization of the
order-unspecified `list(set(...))` (another process's set-iteration order)
yields a differently ordered vocabulary: the original build gives
["a", "b"] while the rebuild gives ["b", "a"]. -/
theorem c9_config_roundtrip_counterexample :
    (∀ l : List Symbol, (List.dedup l).Perm l.dedup) ∧
    (∀ l : List Symbol,
      ((fun l : List Symbol => l.dedup.reverse) l).Perm l.dedup) ∧
    createVocab List.dedup
      ⟨some ["a", "b"], some [], none, none, none, none, true, false⟩ =
      .ok ["a", "b"] ∧
    createVocab (fun l => l.dedup.reverse)
      (ofConfig (to_config
        ⟨some ["a", "b"], some [], none, none, none, none, true, false⟩)) =
      .ok ["b", "a"] ∧
    (["b", "a"] : List Symbol) ≠ ["a", "b"] :=
  ⟨fun _ => List.Perm.refl _, fun l => List.reverse_perm l.dedup,
   by decide, by decide, by decide⟩

/-- C9 amended: to_config captures precisely the eight constructor
parameters, and reconstructing from the captured record — under any
admissible realization of the order-unspecified `list(set(...))` —
yields the same construction result, hence an identical vocabulary and
identical lookup tables, whenever is_sorted is true or is_unique is
false, i.e. whenever the set-iteration order cannot influence the
output.  (With is_unique = true and is_sorted = false the rebuilt
vocabulary is only determined up to that unspecified order.) -/
theorem c9_config_roundtrip_amended {d1 d2 : List Symbol → List Symbol}
    (h1 : ∀ l, (d1 l).Perm l.dedup) (h2 : ∀ l, (d2 l).Perm l.dedup)
    {c : BaseCharacters}
    (hdet : c.is_sorted = true ∨ c.is_unique = false) :
    (to_config c).characters = c.characters ∧
    (to_config c).punctuations = c.punctuations ∧
    (to_config c).pad = c.pad ∧
    (to_config c).eos = c.eos ∧
    (to_config c).bos = c.bos ∧
    (to_config c).blank = c.blank ∧
    (to_config c).is_unique = c.is_unique ∧
    (to_config c).is_sorted = c.is_sorted ∧
    createVocab d2 (ofConfig (to_config c)) = createVocab d1 c ∧
    ∀ v w, createVocab d2 (ofConfig (to_config c)) = .ok v →
      createVocab d1 c = .ok w →
      v = w ∧ (∀ s, char_to_id v s = char_to_id w s) ∧
        (∀ i, id_to_char v i = id_to_char w i) := by
  have hre : ofConfig (to_config c) = c := rfl
  have heq : createVocab d2 c = createVocab d1 c := by
    rcases hdet with hs | hu
    · exact createVocab_eq_of_sorted h2 h1 hs
    · exact createVocab_eq_of_not_unique hu
  refine ⟨rfl, rfl, rfl, rfl, rfl, rfl, rfl, rfl, by rw [hre, heq], ?_⟩
  intro v w hv hw
  rw [hre, heq, hw] at hv
  cases Except.ok.inj hv
  exact ⟨rfl, fun _ => rfl, fun _ => rfl⟩

/-- C9 amended witness: a concrete sorted unique construction whose
persisted-config rebuild, under a different admissible deduplication
order, yields the identical vocabulary and lookup tables. -/
theorem c9_config_roundtrip_amended_witness :
    createVocab (fun l => l.dedup.reverse)
      (ofConfig (to_config ⟨some ["b", "a"], some ["!"], some "<PAD>",
        none, none, none, true, true⟩)) =
      createVocab List.dedup
        ⟨some ["b", "a"], some ["!"], some "<PAD>", none, none, none,
          true, true⟩ ∧
    (["<PAD>", "a", "b", "!"] = ["<PAD>", "a", "b", "!"] ∧
     (∀ s, char_to_id ["<PAD>", "a", "b", "!"] s =
       char_to_id ["<PAD>", "a", "b", "!"] s) ∧
     (∀ i, id_to_char ["<PAD>", "a", "b", "!"] i =
       id_to_char ["<PAD>", "a", "b", "!"] i)) :=
  ⟨(@c9_config_roundtrip_amended List.dedup (fun l => l.dedup.reverse)
      (fun _ => List.Perm.refl _) (fun l => List.reverse_perm l.dedup)
      ⟨some ["b", "a"], some ["!"], some "<PAD>", none, none, none,
        true, true⟩ (Or.inl rfl)).2.2.2.2.2.2.2.2.1,
   (@c9_config_roundtrip_amended List.dedup (fun l => l.dedup.reverse)
      (fun _ => List.Perm.refl _) (fun l => List.reverse_perm l.dedup)
      ⟨some ["b", "a"], some ["!"], some "<PAD>", none, none, none,
        true, true⟩ (Or.inl rfl)).2.2.2.2.2.2.2.2.2
     ["<PAD>", "a", "b", "!"] ["<PAD>", "a", "b", "!"]
     (by decide) (by decide)⟩

/-- C10: with is_unique = false, a vocabulary containing the same symbol at
two positions is accepted silently; num_chars counts both occurrences,
char_to_id maps the symbol to its greatest index, and the round trip from
an earlier occurrence lands on that greatest index, not the earlier one. -/
theorem optTok_some_pos {t : Symbol} (h : 0 < t.length) :
    optTok (some t) = [t] := by
  simp [optTok, h]

theorem c10_silent_duplicates {d : List Symbol → List Symbol}
    {c : BaseCharacters} {cs ps : List Symbol} {s : Symbol} {i j : Nat}
    (hcs : c.characters = some cs) (hps : c.punctuations = some ps)
    (hu : c.is_unique = false) (hij : i < j)
    (hi : (assembleVocab d cs ps c.pad c.eos c.bos c.blank false
      c.is_sorted).get? i = some s)
    (hj : (assembleVocab d cs ps c.pad c.eos c.bos c.blank false
      c.is_sorted).get? j = some s) :
    createVocab d c = .ok (assembleVocab d cs ps c.pad c.eos c.bos
      c.blank false c.is_sorted) ∧
    i < num_chars (assembleVocab d cs ps c.pad c.eos c.bos c.blank
      false c.is_sorted) ∧
    j < num_chars (assembleVocab d cs ps c.pad c.eos c.bos c.blank
      false c.is_sorted) ∧
    ∃ k, j ≤ k ∧ i ≠ k ∧
      char_to_id (assembleVocab d cs ps c.pad c.eos c.bos c.blank false
        c.is_sorted) s = .ok k ∧
      (∀ m, (assembleVocab d cs ps c.pad c.eos c.bos c.blank false
        c.is_sorted).get? m = some s → m ≤ k) ∧
      (id_to_char (assembleVocab d cs ps c.pad c.eos c.bos c.blank
          false c.is_sorted) i).bind
        (char_to_id (assembleVocab d cs ps c.pad c.eos c.bos c.blank
          false c.is_sorted)) = .ok k := by
  refine ⟨createVocab_not_unique_ok d hcs hps hu, ?_, ?_, ?_⟩
  · obtain ⟨hlt, _⟩ := List.get?_eq_some.mp hi
    exact hlt
  · obtain ⟨hlt, _⟩ := List.get?_eq_some.mp hj
    exact hlt
  · obtain ⟨k, hk, hjk⟩ := le_lastIdxOf hj
    refine ⟨k, hjk, by omega, char_to_id_of_lastIdxOf hk, ?_, ?_⟩
    · intro m hm
      obtain ⟨k', hk', hmk'⟩ := le_lastIdxOf hm
      rw [hk] at hk'
      cases Option.some.inj hk'
      exact hmk'
    · unfold id_to_char
      rw [hi]
      exact char_to_id_of_lastIdxOf hk

/-- C10 witness: characters "baa" (sorted, not unique) with pad "<PAD>"
gives vocabulary ["<PAD>", "a", "a", "b"]; construction succeeds, "a" is
at positions 1 and 2, char_to_id "a" is 2 (the greatest index), and the
round trip from position 1 returns 2 ≠ 1. -/
theorem c10_silent_duplicates_witness :
    (1 : Nat) < 2 ∧
    (assembleVocab List.dedup ["b", "a", "a"] [] (some "<PAD>") none none
      none false true).get? 1 = some "a" ∧
    (assembleVocab List.dedup ["b", "a", "a"] [] (some "<PAD>") none none
      none false true).get? 2 = some "a" ∧
    (createVocab List.dedup ⟨some ["b", "a", "a"], some [], some "<PAD>",
        none, none, none, false, true⟩ =
      .ok (assembleVocab List.dedup ["b", "a", "a"] [] (some "<PAD>") none
        none none false true) ∧
    1 < num_chars (assembleVocab List.dedup ["b", "a", "a"] []
      (some "<PAD>") none none none false true) ∧
    2 < num_chars (assembleVocab List.dedup ["b", "a", "a"] []
      (some "<PAD>") none none none false true) ∧
    ∃ k, 2 ≤ k ∧ 1 ≠ k ∧
      char_to_id (assembleVocab List.dedup ["b", "a", "a"] []
        (some "<PAD>") none none none false true) "a" = .ok k ∧
      (∀ m, (assembleVocab List.dedup ["b", "a", "a"] [] (some "<PAD>")
        none none none false true).get? m = some "a" → m ≤ k) ∧
      (id_to_char (assembleVocab List.dedup ["b", "a", "a"] []
          (some "<PAD>") none none none false true) 1).bind
        (char_to_id (assembleVocab List.dedup ["b", "a", "a"] []
          (some "<PAD>") none none none false true)) = .ok k) :=
  ⟨by decide, by decide, by decide,
   @c10_silent_duplicates List.dedup
     ⟨some ["b", "a", "a"], some [], some "<PAD>", none, none, none,
       false, true⟩
     ["b", "a", "a"] [] "a" 1 2 rfl rfl rfl (by decide) (by decide)
     (by decide)⟩

/-- C3 counterexample: with pad = "p", eos = "e", bos = "b", blank = "l"
all present and non-empty, characters = "p" and is_unique = false, the
vocabulary is ["p", "e", "b", "l", "p"] and the id of pad (the last index
of "p", namely 4) is not less than the id of eos (1), refuting the claimed
unconditional ordering pad < eos < bos < blank. -/
theorem c3_ordering_counterexample :
    createVocab List.dedup
      ⟨some ["p"], some [], some "p", some "e", some "b", some "l",
        false, true⟩ = .ok ["p", "e", "b", "l", "p"] ∧
    char_to_id ["p", "e", "b", "l", "p"] "p" = .ok 4 ∧
    char_to_id ["p", "e", "b", "l", "p"] "e" = .ok 1 ∧
    ¬(4 : Nat) < 1 :=
  ⟨by decide, by decide, by decide, by decide⟩

/-- C3 amended: when pad, eos, bos, blank are all present, non-empty,
pairwise distinct, and none of them occurs among the characters or the
punctuations, their ids are 0 < 1 < 2 < 3 in the order pad, eos, bos,
blank, and every symbol of the character or punctuation inventory has an
id strictly greater than 3. -/
theorem c3_ordering_invariant_amended {dedup : List Symbol → List Symbol}
    (hadm : ∀ l, (dedup l).Perm l.dedup) {c : BaseCharacters}
    {v cs ps : List Symbol} {p e bo bl : Symbol}
    (hv : createVocab dedup c = .ok v)
    (hcs : c.characters = some cs) (hps : c.punctuations = some ps)
    (hpad : c.pad = some p) (heos : c.eos = some e) (hbos : c.bos = some bo)
    (hblank : c.blank = some bl)
    (hp : 0 < p.length) (he : 0 < e.length) (hbo : 0 < bo.length)
    (hbl : 0 < bl.length)
    (hd1 : p ≠ e) (hd2 : p ≠ bo) (hd3 : p ≠ bl) (hd4 : e ≠ bo)
    (hd5 : e ≠ bl) (hd6 : bo ≠ bl)
    (hpc : p ∉ cs) (hpp : p ∉ ps) (hec : e ∉ cs) (hep : e ∉ ps)
    (hboc : bo ∉ cs) (hbop : bo ∉ ps) (hblc : bl ∉ cs) (hblp : bl ∉ ps) :
    char_to_id v p = .ok 0 ∧ char_to_id v e = .ok 1 ∧
    char_to_id v bo = .ok 2 ∧ char_to_id v bl = .ok 3 ∧
    ∀ s k, s ∈ cs ∨ s ∈ ps → char_to_id v s = .ok k → 3 < k := by
  obtain ⟨cs', ps', hcs', hps', hveq⟩ := createVocab_ok_shape hv
  rw [hcs] at hcs'
  rw [hps] at hps'
  cases Option.some.inj hcs'
  cases Option.some.inj hps'
  rw [hpad, heos, hbos, hblank, assembleVocab_eq] at hveq
  have hv4 : v = p :: e :: bo :: bl ::
      (coreChars dedup cs c.is_unique c.is_sorted ++ ps) := by
    rw [hveq]
    unfold presentToks
    rw [optTok_some_pos hp, optTok_some_pos he, optTok_some_pos hbo,
      optTok_some_pos hbl]
    simp
  have hrest : ∀ t : Symbol, t ∉ cs → t ∉ ps →
      t ∉ coreChars dedup cs c.is_unique c.is_sorted ++ ps := by
    intro t htc htp hmem
    rcases List.mem_append.mp hmem with hc | hpp'
    · exact htc ((mem_coreChars hadm cs c.is_unique c.is_sorted).mp hc)
    · exact htp hpp'
  have lp : lastIdxOf v p = some 0 := by
    rw [hv4]
    refine lastIdxOf_cons_head ?_
    simp only [List.mem_cons]
    push_neg
    exact ⟨hd1, hd2, hd3, fun hm => hrest p hpc hpp hm⟩
  have le' : lastIdxOf v e = some 1 := by
    rw [hv4]
    refine lastIdxOf_cons_shift (lastIdxOf_cons_head ?_)
    simp only [List.mem_cons]
    push_neg
    exact ⟨hd4, hd5, fun hm => hrest e hec hep hm⟩
  have lbo : lastIdxOf v bo = some 2 := by
    rw [hv4]
    refine lastIdxOf_cons_shift (lastIdxOf_cons_shift
      (lastIdxOf_cons_head ?_))
    simp only [List.mem_cons]
    push_neg
    exact ⟨hd6, fun hm => hrest bo hboc hbop hm⟩
  have lbl : lastIdxOf v bl = some 3 := by
    rw [hv4]
    exact lastIdxOf_cons_shift (lastIdxOf_cons_shift (lastIdxOf_cons_shift
      (lastIdxOf_cons_head (fun hm => hrest bl hblc hblp hm))))
  refine ⟨char_to_id_of_lastIdxOf lp, char_to_id_of_lastIdxOf le',
    char_to_id_of_lastIdxOf lbo, char_to_id_of_lastIdxOf lbl, ?_⟩
  intro s k hmem hck
  have hsp : s ≠ p := by
    rintro rfl
    rcases hmem with h1 | h1
    · exact hpc h1
    · exact hpp h1
  have hse : s ≠ e := by
    rintro rfl
    rcases hmem with h1 | h1
    · exact hec h1
    · exact hep h1
  have hsbo : s ≠ bo := by
    rintro rfl
    rcases hmem with h1 | h1
    · exact hboc h1
    · exact hbop h1
  have hsbl : s ≠ bl := by
    rintro rfl
    rcases hmem with h1 | h1
    · exact hblc h1
    · exact hblp h1
  have hget : v.get? k = some s := lastIdxOf_get? (char_to_id_ok hck)
  rw [hv4] at hget
  match k, hget with
  | 0, hget => exact absurd (Option.some.inj hget).symm hsp
  | 1, hget => exact absurd (Option.some.inj hget).symm hse
  | 2, hget => exact absurd (Option.some.inj hget).symm hsbo
  | 3, hget => exact absurd (Option.some.inj hget).symm hsbl
  | (n + 4), _ => omega

/-- C3 amended witness: on the unique sorted vocabulary
["<PAD>", "<EOS>", "<BOS>", "<BLNK>", "a", "!"] the four control tokens get
ids 0, 1, 2, 3 and every inventory symbol gets an id above 3. -/
theorem c3_ordering_invariant_amended_witness :
    char_to_id ["<PAD>", "<EOS>", "<BOS>", "<BLNK>", "a", "!"] "<PAD>" =
      .ok 0 ∧
    char_to_id ["<PAD>", "<EOS>", "<BOS>", "<BLNK>", "a", "!"] "<EOS>" =
      .ok 1 ∧
    char_to_id ["<PAD>", "<EOS>", "<BOS>", "<BLNK>", "a", "!"] "<BOS>" =
      .ok 2 ∧
    char_to_id ["<PAD>", "<EOS>", "<BOS>", "<BLNK>", "a", "!"] "<BLNK>" =
      .ok 3 ∧
    ∀ s k, s ∈ ["a"] ∨ s ∈ ["!"] →
      char_to_id ["<PAD>", "<EOS>", "<BOS>", "<BLNK>", "a", "!"] s =
        .ok k → 3 < k :=
  @c3_ordering_invariant_amended List.dedup (fun _ => List.Perm.refl _)
    ⟨some ["a"], some ["!"], some "<PAD>", some "<EOS>", some "<BOS>",
      some "<BLNK>", true, true⟩
    ["<PAD>", "<EOS>", "<BOS>", "<BLNK>", "a", "!"] ["a"] ["!"]
    "<PAD>" "<EOS>" "<BOS>" "<BLNK>"
    (by decide) rfl rfl rfl rfl rfl rfl (by decide) (by decide) (by decide)
    (by decide) (by decide) (by decide) (by decide) (by decide) (by decide)
    (by decide) (by decide) (by decide) (by decide) (by decide) (by decide)
    (by decide) (by decide) (by decide)

end VittsCharacters
